import Mathlib

/-!
Verification development for the reactivity core of a Vue-2 style
dependency-tracking engine.  The JavaScript sources embedded here are
`src/core/observer/index.js` (Observer, observe, defineReactive, set, del),
`src/core/observer/dep.js` (Dep, pushTarget, popTarget) and the array-method
interceptor module (`arrayMethods` / `mutator`).

The embedding models the JavaScript runtime explicitly:
* `Value` is a JS value (primitives plus references into a heap);
* `Obj` is a heap object: a plain object, array, VNode or other exotic
  object, carrying its property slots, array elements and the hidden
  `__ob__` marker;
* `St` is the global machine state: the heap, the id counters backing
  `uid++` allocation of Dep ids and Observer identity, the process flags
  (`shouldObserve`, server rendering, dev mode) and an event trace that
  records every emitted warning and every `dep.notify()` call.

Functions that recursively instrument object graphs take a fuel argument;
cycles terminate in the source because the `__ob__` marker is written
before recursing, and the fuel only truncates instrumentation depth, never
changes the behaviour exercised by the theorems (witnesses pass ample fuel).
-/

/-- A JavaScript value: primitives, plus `ref a` for an object reference
into the heap.  `nan` is kept separate from `num` because the reactive
self-comparison test of the setter (`newVal !== newVal`) distinguishes it. -/
inductive Value where
  | undef
  | null
  | bool (b : Bool)
  | num (n : Int)
  | nan
  | str (s : String)
  | ref (a : Nat)
deriving DecidableEq, Repr

/-- JavaScript strict equality `===` on modelled values.  `NaN` is not equal
to itself; references compare by address. -/
def jsStrictEq : Value → Value → Bool
  | .undef, .undef => true
  | .null, .null => true
  | .bool a, .bool b => a == b
  | .num a, .num b => a == b
  | .str a, .str b => a == b
  | .ref a, .ref b => a == b
  | _, _ => false

/-- The test `v !== v`, true exactly for values not equal to themselves
(`NaN`). -/
def selfNeq (v : Value) : Bool := !(jsStrictEq v v)

/-- The Vue helper `isUndef`: the value is `undefined` or `null`. -/
def isUndef : Value → Bool
  | .undef => true
  | .null => true
  | _ => false

/-- The Vue helper `isPrimitive`: string, number or boolean (symbols are not
modelled). -/
def isPrimitive : Value → Bool
  | .str _ => true
  | .num _ => true
  | .nan => true
  | .bool _ => true
  | _ => false

/-- Modelled from the spec: `isValidArrayIndex` (the `src/core/util`
helper is not part of the sources) accepts a valid non-negative integer
index. -/
def isValidArrayIndex : Value → Bool
  | .num n => decide (0 ≤ n)
  | _ => false

/-- JS `ToPropertyKey` string conversion for the value universe used here. -/
def propKey : Value → String
  | .str s => s
  | .num n => toString n
  | .nan => "NaN"
  | .undef => "undefined"
  | .null => "null"
  | .bool true => "true"
  | .bool false => "false"
  | .ref _ => "[object Object]"

/-- The own property names of `Object.prototype`, used by the
`!(key in Object.prototype)` test of `set`. -/
def objectProtoKeys : List String :=
  ["constructor", "hasOwnProperty", "isPrototypeOf", "propertyIsEnumerable",
   "toLocaleString", "toString", "valueOf", "__proto__",
   "__defineGetter__", "__defineSetter__", "__lookupGetter__", "__lookupSetter__"]

/-- Membership of a key in `Object.prototype`. -/
def inObjectProto (k : String) : Bool := objectProtoKeys.contains k

/-- One property slot of a heap object.  A slot installed by
`defineReactive` has `rdep = some d` (the id of the Dep closed over by its
accessor pair) and caches the child observer id in `childOb`; `hasGetter` /
`hasSetter` record a pre-existing getter/setter captured by the closure. -/
structure PropSlot where
  value : Value
  configurable : Bool := true
  hasGetter : Bool := false
  hasSetter : Bool := false
  rdep : Option Nat := none
  childOb : Option Nat := none
deriving DecidableEq, Repr

/-- The `__ob__` marker: identity of the Observer instance attached to a
value, the id of the Dep it owns, and its root-data usage counter. -/
structure ObsData where
  obId : Nat
  depId : Nat
  vmCount : Nat := 0
deriving DecidableEq, Repr

/-- Structural category of a heap object, deciding `Array.isArray`,
`isPlainObject` and `instanceof VNode`. -/
inductive ObjKind where
  | plain
  | array
  | vnode
  | other
deriving DecidableEq, Repr

/-- A heap object.  `elems` is used when `kind = array`; `props` are the
own (enumerable) named properties; `protoKeys` models inherited data
properties other than those of `Object.prototype`. -/
structure Obj where
  kind : ObjKind
  elems : List Value := []
  props : List (String × PropSlot) := []
  protoKeys : List String := []
  isVue : Bool := false
  extensible : Bool := true
  ob : Option ObsData := none
deriving DecidableEq, Repr

/-- An entry of the observable event trace: a non-fatal diagnostic
(`warn`) or a `dep.notify()` call on the Dep with the given id. -/
inductive Ev where
  | warn
  | notify (depId : Nat)
deriving DecidableEq, Repr

/-- The global machine state. -/
structure St where
  heap : Nat → Option Obj
  nextObs : Nat := 0
  nextDep : Nat := 0
  shouldObserve : Bool := true
  serverRendering : Bool := false
  dev : Bool := true
  events : List Ev := []

/-- Look up an own property slot by key. -/
def lookupProp : List (String × PropSlot) → String → Option PropSlot
  | [], _ => none
  | (k, sl) :: rest, key => if k = key then some sl else lookupProp rest key

/-- Replace the slot for `key` in place, or append it when absent
(`Object.defineProperty` semantics for key order). -/
def putProp : List (String × PropSlot) → String → PropSlot → List (String × PropSlot)
  | [], key, sl => [(key, sl)]
  | (k, old) :: rest, key, sl =>
      if k = key then (k, sl) :: rest else (k, old) :: putProp rest key sl

/-- Remove the own property for `key` (the `delete` operator). -/
def dropProp : List (String × PropSlot) → String → List (String × PropSlot)
  | [], _ => []
  | (k, old) :: rest, key => if k = key then rest else (k, old) :: dropProp rest key

/-- Update the object at address `a` through `f`, leaving the rest of the
heap untouched. -/
def updObj (s : St) (a : Nat) (f : Obj → Obj) : St :=
  { s with heap := fun b => if b = a then (s.heap b).map f else s.heap b }

/-- Write a property slot of the object at address `a`. -/
def setProp (s : St) (a : Nat) (key : String) (sl : PropSlot) : St :=
  updObj s a fun o => { o with props := putProp o.props key sl }

/-- Delete a property of the object at address `a`. -/
def removeProp (s : St) (a : Nat) (key : String) : St :=
  updObj s a fun o => { o with props := dropProp o.props key }

/-- Replace the element list of the array object at address `a`. -/
def updElems (s : St) (a : Nat) (e : List Value) : St :=
  updObj s a fun o => { o with elems := e }

/-- The `ob.vmCount++` step of `observe(value, asRootData)`. -/
def bumpVm (s : St) (a : Nat) : St :=
  updObj s a fun o =>
    { o with ob := o.ob.map fun od => { od with vmCount := od.vmCount + 1 } }

/-- Append a non-fatal diagnostic to the trace (`warn`). -/
def warnEv (s : St) : St := { s with events := s.events ++ [.warn] }

mutual

/-- `observe(value, asRootData)` from `src/core/observer/index.js`:
returns nothing for non-objects or VNodes; returns the existing Observer
when the `__ob__` marker is present; otherwise creates a new Observer when
observation is enabled, the runtime is not server rendering, the value is a
plain object or array, extensible, and not a Vue instance.  Finally bumps
`vmCount` when `asRootData` is set and an observer exists. -/
def observeF : Nat → St → Value → Bool → St × Option Nat
  | 0, s, _, _ => (s, none)
  | n + 1, s, v, asRootData =>
    match v with
    | .ref a =>
      match s.heap a with
      | none => (s, none)
      | some o =>
        if o.kind = .vnode then (s, none)
        else
          let res : St × Option Nat :=
            match o.ob with
            | some od => (s, some od.obId)
            | none =>
              if s.shouldObserve && !s.serverRendering &&
                 (o.kind = .array || o.kind = .plain) && o.extensible && !o.isVue
              then
                let p := observerNewF n s a
                (p.1, some p.2)
              else (s, none)
          if asRootData && res.2.isSome then (bumpVm res.1 a, res.2)
          else res
    | _ => (s, none)

/-- The `Observer` constructor: allocates the Observer identity and its
Dep, writes the hidden `__ob__` marker (before recursing, which is what
makes cyclic graphs terminate), then installs the array interceptor and
observes every element for arrays, or walks every own key for objects. -/
def observerNewF : Nat → St → Nat → St × Nat
  | fuel, s, a =>
    match s.heap a with
    | none => (s, s.nextObs)
    | some o =>
      let obId := s.nextObs
      let od : ObsData := { obId := obId, depId := s.nextDep }
      let s1 : St :=
        { s with
          nextObs := obId + 1
          nextDep := s.nextDep + 1
          heap := fun b => if b = a then some { o with ob := some od } else s.heap b }
      match fuel with
      | 0 => (s1, obId)
      | n + 1 =>
        if o.kind = .array then (observeArrayF n s1 o.elems, obId)
        else (walkF n s1 a (o.props.map Prod.fst), obId)

/-- `Observer.walk`: run `defineReactive(obj, key)` over the key list
captured by `Object.keys` at entry. -/
def walkF : Nat → St → Nat → List String → St
  | 0, s, _, _ => s
  | _ + 1, s, _, [] => s
  | n + 1, s, a, k :: ks => walkF n (defineReactiveF n s a k none) a ks

/-- `Observer.observeArray`: `observe` each element of the list. -/
def observeArrayF : Nat → St → List Value → St
  | 0, s, _ => s
  | _ + 1, s, [] => s
  | n + 1, s, v :: vs => observeArrayF n (observeF n s v false).1 vs

/-- `defineReactive(obj, key, val?)`.  `valArg = none` models the two
argument call (`walk`), where `val` is read from the slot unless a getter
without setter is present; `valArg = some v` models the three argument call
from `set`.  A fresh Dep is allocated first (as in the source, even when
the property turns out non-configurable); a non-configurable descriptor
aborts; otherwise the child value is observed and the accessor pair is
installed over the slot. -/
def defineReactiveF : Nat → St → Nat → String → Option Value → St
  | 0, s, _, _, _ => s
  | n + 1, s, a, key, valArg =>
    match s.heap a with
    | none => s
    | some o =>
      let depId := s.nextDep
      let s1 : St := { s with nextDep := depId + 1 }
      match lookupProp o.props key with
      | some sl =>
        if sl.configurable = false then s1
        else
          let hasG := sl.hasGetter || sl.rdep.isSome
          let hasS := sl.hasSetter || sl.rdep.isSome
          let val : Value :=
            match valArg with
            | none => if !hasG || hasS then sl.value else .undef
            | some v => v
          let p := observeF n s1 val false
          setProp p.1 a key
            { value := val, configurable := true, hasGetter := hasG,
              hasSetter := hasS, rdep := some depId, childOb := p.2 }
      | none =>
        let val := valArg.getD .undef
        let p := observeF n s1 val false
        setProp p.1 a key
          { value := val, configurable := true, hasGetter := false,
            hasSetter := false, rdep := some depId, childOb := p.2 }

end

/-- The `reactiveSetter` closure installed by `defineReactive` on the slot
`key` of the object at `a`: compute the current value, return on the strict
equality / both-`NaN` no-op test, return when a pre-existing getter has no
setter, otherwise store the value, re-observe it (recomputing the cached
child observer) and `dep.notify()`.  The result of a pre-existing getter is
modelled as the cached slot value. -/
def reactiveSetterF (n : Nat) (s : St) (a : Nat) (key : String) (newVal : Value) : St :=
  match s.heap a with
  | none => s
  | some o =>
    match lookupProp o.props key with
    | none => s
    | some sl =>
      match sl.rdep with
      | none => s
      | some d =>
        if jsStrictEq newVal sl.value || (selfNeq newVal && selfNeq sl.value) then s
        else if sl.hasGetter && !sl.hasSetter then s
        else
          let p := observeF n s newVal false
          let s2 := setProp p.1 a key { sl with value := newVal, childOb := p.2 }
          { s2 with events := s2.events ++ [.notify d] }

/-- A thrown JavaScript exception. -/
inductive JsError where
  | typeError
deriving DecidableEq, Repr

/-- The assignment `target[key] = val` on a heap object, under the
strict-mode semantics of the ES-module source: a reactive slot runs its
`reactiveSetter`; a write to an accessor slot without setter throws a
TypeError; a plain data slot is overwritten; an absent key is created as
an own data property when the object is extensible, and the creation
throws a TypeError when it is not. -/
def assignSlotF (n : Nat) (s : St) (a : Nat) (key : String) (v : Value) :
    St × Except JsError Unit :=
  match s.heap a with
  | none => (s, .ok ())
  | some o =>
    match lookupProp o.props key with
    | some sl =>
      if sl.rdep.isSome then (reactiveSetterF n s a key v, .ok ())
      else if sl.hasGetter && !sl.hasSetter then (s, .error .typeError)
      else (setProp s a key { sl with value := v }, .ok ())
    | none =>
      if o.extensible then
        (setProp s a key { value := v }, .ok ())
      else (s, .error .typeError)

/-- The seven array methods patched by the interceptor module. -/
inductive AMethod where
  | push
  | pop
  | shift
  | unshift
  | splice
  | sort
  | reverse
deriving DecidableEq, Repr

/-- Result of a native array method: a plain value, or the fresh array of
removed elements returned by `splice`. -/
inductive JsRet where
  | v (x : Value)
  | arr (l : List Value)
deriving DecidableEq, Repr

/-- JS `ToIntegerOrInfinity` on the modelled values (non-numeric strings
and objects coerce through `NaN` to `0`). -/
def toIntJs : Value → Int
  | .num n => n
  | .bool true => 1
  | _ => 0

/-- A fixed string key used to model the default sort comparison of the engine
(`String(x)` ordering). -/
def sortKey : Value → String
  | .undef => "undefined"
  | .null => "null"
  | .bool true => "true"
  | .bool false => "false"
  | .num n => toString n
  | .nan => "NaN"
  | .str s => s
  | .ref _ => "[object Object]"

/-- ECMAScript `Array.prototype.splice` on an element list: returns the
new element list and the removed elements. -/
def spliceNative (elems : List Value) (args : List Value) : List Value × List Value :=
  match args with
  | [] => (elems, [])
  | startV :: rest =>
    let len : Int := elems.length
    let rel := toIntJs startV
    let start : Nat := if rel < 0 then (max (len + rel) 0).toNat else (min rel len).toNat
    let delCount : Nat :=
      match rest with
      | [] => elems.length - start
      | dcV :: _ => (min (max (toIntJs dcV) 0) (len - (start : Int))).toNat
    let items := rest.drop 1
    let removed := (elems.drop start).take delCount
    (elems.take start ++ items ++ elems.drop (start + delCount), removed)

/-- The native `Array.prototype` methods captured by the interceptor as
`original` (ECMAScript semantics on the element list; `sort` uses the
default string-key comparison of the engine and `sort`/`reverse` return the
receiver itself). -/
def nativeArr (m : AMethod) (self : Nat) (elems : List Value) (args : List Value) :
    List Value × JsRet :=
  match m with
  | .push => (elems ++ args, .v (.num (elems.length + args.length)))
  | .pop => (elems.dropLast, .v ((elems.getLast?).getD .undef))
  | .shift => (elems.drop 1, .v ((elems.head?).getD .undef))
  | .unshift => (args ++ elems, .v (.num (args.length + elems.length)))
  | .splice =>
    let p := spliceNative elems args
    (p.1, .arr p.2)
  | .sort => (List.insertionSort (fun x y => sortKey x ≤ sortKey y) elems, .v (.ref self))
  | .reverse => (elems.reverse, .v (.ref self))

/-- The `inserted` computation of the interceptor `mutator`: `push` and
`unshift` insert their arguments, `splice` inserts the arguments from
index 2 on; for the other methods `inserted` stays undefined (note that an
empty argument list still yields `some []`, as the JS array is truthy). -/
def insertedOf (m : AMethod) (args : List Value) : Option (List Value) :=
  match m with
  | .push | .unshift => some args
  | .splice => some (args.drop 2)
  | _ => none

/-- The `mutator` wrapper of the interceptor around a native array method: run
the original method, observe the newly inserted elements through
`ob.observeArray`, notify the own Dep of the array Observer once, and return the
original result.  `ob` (`this.__ob__`) is captured at entry. -/
def mutatorF (n : Nat) (s : St) (a : Nat) (m : AMethod) (args : List Value) : St × JsRet :=
  match s.heap a with
  | none => (s, .v .undef)
  | some o =>
    let p := nativeArr m a o.elems args
    let s1 := updElems s a p.1
    let s2 :=
      match insertedOf m args with
      | some ins => observeArrayF n s1 ins
      | none => s1
    let s3 :=
      match o.ob with
      | some od => { s2 with events := s2.events ++ [.notify od.depId] }
      | none => s2
    (s3, p.2)

/-- Dispatch of an array method call on an array instance: an observed
array (whose prototype was substituted by the interceptor) runs the
`mutator`; an unobserved array runs the native method directly. -/
def arrayMethodCallF (n : Nat) (s : St) (a : Nat) (m : AMethod) (args : List Value) :
    St × JsRet :=
  match s.heap a with
  | none => (s, .v .undef)
  | some o =>
    if o.ob.isSome then mutatorF n s a m args
    else
      let p := nativeArr m a o.elems args
      (updElems s a p.1, p.2)

/-- `Array.isArray(target)` over the heap. -/
def isArrayV (s : St) : Value → Bool
  | .ref a =>
    match s.heap a with
    | some o => o.kind = .array
    | none => false
  | _ => false

/-- The `key in target` test (own and inherited properties, including
those of `Object.prototype`). -/
def jsIn (o : Obj) (k : String) : Bool :=
  (lookupProp o.props k).isSome || o.protoKeys.contains k || inObjectProto k

/-- The root/instance guard of `set` and `del`:
`target._isVue || (ob && ob.vmCount)`. -/
def rootGuard (o : Obj) : Bool :=
  o.isVue ||
    (match o.ob with
     | some od => decide (0 < od.vmCount)
     | none => false)

/-- `set(target, key, val)` from `src/core/observer/index.js`.  The result
pairs the final state with either the returned value or a thrown
exception.  Warnings are emitted in dev mode for undefined/null/primitive
targets; valid array indices go through `length` growth plus the
`splice` of the interceptor; existing keys (outside `Object.prototype`) are
plainly assigned, propagating a strict-mode assignment TypeError (note
also that `key in target` throws a TypeError when the target is not an
object); the root/instance guard warns and returns; unobserved targets get
a plain assignment, again propagating assignment errors; otherwise the new
key is made reactive via `defineReactive` and the Dep of the Observer is
notified once. -/
def jsSet (n : Nat) (s0 : St) (target key val : Value) : St × Except JsError Value :=
  let s := if s0.dev && (isUndef target || isPrimitive target) then warnEv s0 else s0
  if isArrayV s target && isValidArrayIndex key then
    match target with
    | .ref a =>
      (match s.heap a with
       | some o =>
         let k := (toIntJs key).toNat
         let s1 := if o.elems.length < k
                   then updElems s a (o.elems ++ List.replicate (k - o.elems.length) .undef)
                   else s
         ((arrayMethodCallF n s1 a .splice [key, .num 1, val]).1, .ok val)
       | none => (s, .error .typeError))
    | _ => (s, .error .typeError)
  else
    match target with
    | .ref a =>
      match s.heap a with
      | none => (s, .error .typeError)
      | some o =>
        let k := propKey key
        if jsIn o k && !inObjectProto k then
          let p := assignSlotF n s a k val
          (p.1, p.2.map fun _ => val)
        else if rootGuard o then
          (if s.dev then warnEv s else s, .ok val)
        else
          match o.ob with
          | none =>
            let p := assignSlotF n s a k val
            (p.1, p.2.map fun _ => val)
          | some od =>
            let s1 := defineReactiveF n s a k (some val)
            ({ s1 with events := s1.events ++ [.notify od.depId] }, .ok val)
    | _ => (s, .error .typeError)

/-- The `hasOwnProperty` test on a boxed primitive: a string has its
index properties and `length` as own properties; the other primitives have
none. -/
def primOwnKey : Value → String → Bool
  | .str s, k => (List.range s.length).any (fun i => toString i = k) || k = "length"
  | _, _ => false

/-- `del(target, key)` from `src/core/observer/index.js`, under the
strict-mode semantics of the ES-module source.  Valid array indices are
removed through the `splice` of the interceptor; reading `target.__ob__`
throws a TypeError on null/undefined targets; the root/instance guard
warns and returns; a non-own key is a no-op; otherwise the key is deleted
— `delete` on a non-configurable slot throws a TypeError in strict mode —
and the Dep of the Observer, if any, is notified once.  A primitive
(non-nullish) target passes the `hasOwn` test exactly for the own
properties of its boxed form (string indices and `length`), where the
strict-mode `delete` of the non-configurable property then throws; for
every other key it falls through `hasOwn` to a safe no-op. -/
def jsDel (n : Nat) (s0 : St) (target key : Value) : St × Except JsError Unit :=
  let s := if s0.dev && (isUndef target || isPrimitive target) then warnEv s0 else s0
  if isArrayV s target && isValidArrayIndex key then
    match target with
    | .ref a => ((arrayMethodCallF n s a .splice [key, .num 1]).1, .ok ())
    | _ => (s, .error .typeError)
  else
    match target with
    | .undef => (s, .error .typeError)
    | .null => (s, .error .typeError)
    | .ref a =>
      match s.heap a with
      | none => (s, .error .typeError)
      | some o =>
        if rootGuard o then
          (if s.dev then warnEv s else s, .ok ())
        else
          let k := propKey key
          match lookupProp o.props k with
          | none => (s, .ok ())
          | some sl =>
            if sl.configurable then
              let s1 := removeProp s a k
              match o.ob with
              | none => (s1, .ok ())
              | some od => ({ s1 with events := s1.events ++ [.notify od.depId] }, .ok ())
            else (s, .error .typeError)
    | _ =>
      if primOwnKey target (propKey key) then (s, .error .typeError) else (s, .ok ())

/-- The snapshot step of `Dep.notify` from `src/core/observer/dep.js`:
`this.subs.slice()`, then — outside production when `config.async` is
false — `subs.sort((a, b) => a.id - b.id)`.  Subscribers are represented
by their creation-order ids. -/
def notifySnapshot (dev async : Bool) (subs : List Nat) : List Nat :=
  let snap := subs
  if dev && !async then List.insertionSort (fun x y => x ≤ y) snap else snap

/-- The iteration of `Dep.notify`: walk the snapshot invoking
`subs[i].update()` in order.  Each `update()` may reentrantly mutate the
live subscriber list of the Dep, modelled by the arbitrary `eff`; the function
returns the invocation sequence and the final live list. -/
def notifyLoopF : List Nat → (Nat → List Nat → List Nat) → List Nat → List Nat × List Nat
  | [], _, live => ([], live)
  | w :: rest, eff, live =>
    let live2 := eff w live
    let p := notifyLoopF rest eff live2
    (w :: p.1, p.2)

/-- `Dep.notify()`: snapshot (and, in synchronous dev delivery, sort) the
subscriber list, then iterate the snapshot while updates mutate the live
list. -/
def notifyF (dev async : Bool) (eff : Nat → List Nat → List Nat) (subs : List Nat) :
    List Nat × List Nat :=
  notifyLoopF (notifySnapshot dev async subs) eff subs

/-- The value of the global `Dep.target` pointer: `null` (its initial
value), `undefined` (what indexing an empty stack yields) or a watcher.
The JS distinction between `null` and `undefined` is kept. -/
inductive TVal where
  | null
  | undef
  | w (id : Nat)
deriving DecidableEq, Repr

/-- The active-reader context of `dep.js`: the module-level `targetStack`
array and the `Dep.target` static pointer.  The initial state is
`⟨[], .null⟩`. -/
structure TState where
  stack : List TVal
  target : TVal
deriving DecidableEq, Repr

/-- `pushTarget(target)`: push onto the stack and point `Dep.target` at the
pushed value. -/
def pushTargetF (s : TState) (t : TVal) : TState :=
  { stack := s.stack ++ [t], target := t }

/-- `popTarget()`: pop the stack and restore `Dep.target` to
`targetStack[targetStack.length - 1]`, which is `undefined` when the stack
has emptied. -/
def popTargetF (s : TState) : TState :=
  let st := s.stack.dropLast
  { stack := st, target := (st.getLast?).getD .undef }

/-- A one-object heap holding an empty extensible plain object at address
0, used by concrete evaluation theorems. -/
def plainHeapSt : St := { heap := fun a => if a = 0 then some { kind := .plain } else none }

/-- A reactive slot holding the number 1 on Dep 7, used by concrete
evaluation theorems. -/
def rSlotNum : PropSlot := { value := .num 1, rdep := some 7 }

/-- A reactive slot holding `NaN` on Dep 8, used by concrete evaluation
theorems. -/
def rSlotNan : PropSlot := { value := .nan, rdep := some 8 }

/-- A reactive slot installed over a property that had a getter but no
setter, used by concrete evaluation theorems. -/
def rSlotGet : PropSlot := { value := .num 1, hasGetter := true, rdep := some 7 }

/-- A plain object whose reactive slot `"k"` stores the number 1. -/
def rObjNum : Obj := { kind := .plain, props := [("k", rSlotNum)] }

/-- A plain object whose reactive slot `"k"` stores `NaN`. -/
def rObjNan : Obj := { kind := .plain, props := [("k", rSlotNan)] }

/-- A plain object whose slot `"k"` is a read-only passthrough. -/
def rObjGet : Obj := { kind := .plain, props := [("k", rSlotGet)] }

/-- A heap with the two reactive-slot objects above at addresses 0 and 1,
used by concrete evaluation theorems. -/
def rSlotSt : St :=
  { heap := fun a => if a = 0 then some rObjNum else if a = 1 then some rObjNan else none }

/-- A heap with the read-only passthrough object at address 0, used by
concrete evaluation theorems. -/
def rGetterSt : St := { heap := fun a => if a = 0 then some rObjGet else none }

/-- An element value is due to be instrumented by `observeArray` when it
already carries a marker, or when the `observe` eligibility guard (the
observation switch, non-server rendering, plain-or-array kind,
extensibility, not a Vue instance) passes for it. -/
def eligibleObj (s : St) (o : Obj) : Prop :=
  o.ob.isSome = true ∨ (s.shouldObserve && !s.serverRendering &&
    (decide (o.kind = .array) || decide (o.kind = .plain)) && o.extensible && !o.isVue) = true

/-- An observed one-element array (Observer 0 owning Dep 5), used by
concrete evaluation theorems. -/
def arrObj : Obj := { kind := .array, elems := [.num 1], ob := some { obId := 0, depId := 5 } }

/-- A heap holding the observed array at address 0, used by concrete
evaluation theorems. -/
def arrSt : St := { heap := fun a => if a = 0 then some arrObj else none }

/-- A root-data object: a plain object with the reactive slot `"k"` whose
Observer has `vmCount = 1`, used by concrete evaluation theorems. -/
def rootObj : Obj :=
  { kind := .plain, props := [("k", rSlotNum)], ob := some { obId := 2, depId := 9, vmCount := 1 } }

/-- A heap holding the root-data object at address 0, used by concrete
evaluation theorems. -/
def rootSt : St := { heap := fun a => if a = 0 then some rootObj else none }

/-- A plain object whose own slot `"g"` is a non-reactive getter-only
accessor property, used by concrete evaluation theorems. -/
def gObj : Obj := { kind := .plain, props := [("g", { value := .num 1, hasGetter := true })] }

/-- A heap holding the getter-only object at address 0, used by concrete
evaluation theorems. -/
def gSt : St := { heap := fun a => if a = 0 then some gObj else none }

/-- What the instrumentation family (`observe` and the Observer
constructor machinery) preserves of the global state: the process flags,
the event trace (instrumentation emits no warnings and no notifications),
and, per live heap object, its structural category, elements, prototype,
flags, and the identity (`obId`, `depId`) of an already-attached Observer
marker. -/
structure Pres (s s2 : St) : Prop where
  flagObserve : s2.shouldObserve = s.shouldObserve
  flagServer : s2.serverRendering = s.serverRendering
  flagDev : s2.dev = s.dev
  events : s2.events = s.events
  heap : ∀ a o, s.heap a = some o → ∃ o2, s2.heap a = some o2 ∧
    o2.kind = o.kind ∧ o2.elems = o.elems ∧ o2.protoKeys = o.protoKeys ∧
    o2.isVue = o.isVue ∧ o2.extensible = o.extensible ∧
    ∀ od, o.ob = some od →
      ∃ od2, o2.ob = some od2 ∧ od2.obId = od.obId ∧ od2.depId = od.depId

theorem Pres.same (s : St) : Pres s s :=
  ⟨rfl, rfl, rfl, rfl, fun _ o h => ⟨o, h, rfl, rfl, rfl, rfl, rfl,
    fun od hod => ⟨od, hod, rfl, rfl⟩⟩⟩

theorem Pres.comp {s t u : St} (h1 : Pres s t) (h2 : Pres t u) : Pres s u := by
  refine ⟨h2.flagObserve.trans h1.flagObserve, h2.flagServer.trans h1.flagServer,
    h2.flagDev.trans h1.flagDev, h2.events.trans h1.events, ?_⟩
  intro a o h
  obtain ⟨o2, ho2, hk, he, hp, hv, hx, hob⟩ := h1.heap a o h
  obtain ⟨o3, ho3, hk2, he2, hp2, hv2, hx2, hob2⟩ := h2.heap a o2 ho2
  refine ⟨o3, ho3, hk2.trans hk, he2.trans he, hp2.trans hp, hv2.trans hv,
    hx2.trans hx, ?_⟩
  intro od hod
  obtain ⟨od2, hod2, hi, hd⟩ := hob od hod
  obtain ⟨od3, hod3, hi2, hd2⟩ := hob2 od2 hod2
  exact ⟨od3, hod3, hi2.trans hi, hd2.trans hd⟩

theorem pres_updObj (s : St) (a : Nat) (f : Obj → Obj)
    (hk : ∀ o, (f o).kind = o.kind) (he : ∀ o, (f o).elems = o.elems)
    (hp : ∀ o, (f o).protoKeys = o.protoKeys) (hv : ∀ o, (f o).isVue = o.isVue)
    (hx : ∀ o, (f o).extensible = o.extensible)
    (hob : ∀ o od, o.ob = some od →
      ∃ od2, (f o).ob = some od2 ∧ od2.obId = od.obId ∧ od2.depId = od.depId) :
    Pres s (updObj s a f) := by
  refine ⟨rfl, rfl, rfl, rfl, ?_⟩
  intro b o h
  by_cases hba : b = a
  · subst hba
    exact ⟨f o, by simp [updObj, h], hk o, he o, hp o, hv o, hx o, hob o⟩
  · exact ⟨o, by simp [updObj, hba, h], rfl, rfl, rfl, rfl, rfl,
      fun od hod => ⟨od, hod, rfl, rfl⟩⟩

theorem pres_setProp (s : St) (a : Nat) (k : String) (sl : PropSlot) :
    Pres s (setProp s a k sl) :=
  pres_updObj s a _ (fun _ => rfl) (fun _ => rfl) (fun _ => rfl) (fun _ => rfl)
    (fun _ => rfl) (fun _ od hod => ⟨od, by simp [hod], rfl, rfl⟩)

theorem pres_bumpVm (s : St) (a : Nat) : Pres s (bumpVm s a) :=
  pres_updObj s a _ (fun _ => rfl) (fun _ => rfl) (fun _ => rfl) (fun _ => rfl)
    (fun _ => rfl) (fun _ od hod => ⟨{ od with vmCount := od.vmCount + 1 }, by simp [hod],
      rfl, rfl⟩)

theorem pres_nextDep (s : St) (nd : Nat) : Pres s { s with nextDep := nd } :=
  ⟨rfl, rfl, rfl, rfl, fun _ o h => ⟨o, h, rfl, rfl, rfl, rfl, rfl,
    fun od hod => ⟨od, hod, rfl, rfl⟩⟩⟩

theorem pres_setMarker (s : St) (a : Nat) (o : Obj) (od : ObsData) (no nd : Nat)
    (h : s.heap a = some o) (hob : o.ob = none) :
    Pres s { s with
               nextObs := no,
               nextDep := nd,
               heap := fun b => if b = a then some { o with ob := some od } else s.heap b } := by
  refine ⟨rfl, rfl, rfl, rfl, ?_⟩
  intro b o0 hb
  by_cases hba : b = a
  · subst hba
    rw [h] at hb
    injection hb with hb
    subst hb
    refine ⟨{ o with ob := some od }, by simp, rfl, rfl, rfl, rfl, rfl, ?_⟩
    intro od0 hod0
    rw [hob] at hod0
    cases hod0
  · exact ⟨o0, by simp [hba, hb], rfl, rfl, rfl, rfl, rfl,
      fun od0 h0 => ⟨od0, h0, rfl, rfl⟩⟩

/-- The instrumentation family preserves flags, the event trace, and the
identity of every already-attached Observer marker. -/
theorem presAll : ∀ n : Nat,
    (∀ s v r, Pres s (observeF n s v r).1) ∧
    (∀ s a, (∀ o, s.heap a = some o → o.ob = none) → Pres s (observerNewF n s a).1) ∧
    (∀ s a keys, Pres s (walkF n s a keys)) ∧
    (∀ s vs, Pres s (observeArrayF n s vs)) ∧
    (∀ s a k w, Pres s (defineReactiveF n s a k w)) := by
  intro n
  induction n with
  | zero =>
    refine ⟨?_, ?_, ?_, ?_, ?_⟩
    · intro s v r
      simp only [observeF]
      exact Pres.same s
    · intro s a h
      cases hh : s.heap a with
      | none => simp only [observerNewF, hh]; exact Pres.same s
      | some o =>
        simp only [observerNewF, hh]
        exact pres_setMarker s a o ⟨s.nextObs, s.nextDep, 0⟩ (s.nextObs + 1) (s.nextDep + 1) hh (h o hh)
    · intro s a keys
      simp only [walkF]
      exact Pres.same s
    · intro s vs
      simp only [observeArrayF]
      exact Pres.same s
    · intro s a k w
      simp only [defineReactiveF]
      exact Pres.same s
  | succ n ih =>
    obtain ⟨ihObs, ihNew, ihWalk, ihArr, ihDR⟩ := ih
    refine ⟨?_, ?_, ?_, ?_, ?_⟩
    · intro s v r
      cases v with
      | ref a =>
        cases hh : s.heap a with
        | none => simp only [observeF, hh]; exact Pres.same s
        | some o =>
          by_cases hv : o.kind = .vnode
          · simp only [observeF, hh, hv]
            simp
            exact Pres.same s
          · cases hob : o.ob with
            | some od =>
              cases r with
              | false =>
                simp only [observeF, hh, hob]
                simp [hv]
                exact Pres.same s
              | true =>
                simp only [observeF, hh, hob]
                simp [hv]
                exact pres_bumpVm s a
            | none =>
              have hnew : ∀ o2, s.heap a = some o2 → o2.ob = none := by
                intro o2 h2
                rw [hh] at h2
                injection h2 with h2
                rw [← h2]
                exact hob
              by_cases hg : (s.shouldObserve && !s.serverRendering &&
                  (decide (o.kind = .array) || decide (o.kind = .plain)) && o.extensible && !o.isVue) = true
              · cases r with
                | false =>
                  simp only [observeF, hh, hob]
                  simp [hv, hg]
                  exact ihNew s a hnew
                | true =>
                  simp only [observeF, hh, hob]
                  simp [hv, hg]
                  exact (ihNew s a hnew).comp (pres_bumpVm _ a)
              · simp only [observeF, hh, hob]
                simp [hv, hg]
                exact Pres.same s
      | undef => simp only [observeF]; exact Pres.same s
      | null => simp only [observeF]; exact Pres.same s
      | bool b => simp only [observeF]; exact Pres.same s
      | num m => simp only [observeF]; exact Pres.same s
      | nan => simp only [observeF]; exact Pres.same s
      | str t => simp only [observeF]; exact Pres.same s
    · intro s a h
      cases hh : s.heap a with
      | none => simp only [observerNewF, hh]; exact Pres.same s
      | some o =>
        have hmark := pres_setMarker s a o ⟨s.nextObs, s.nextDep, 0⟩ (s.nextObs + 1)
          (s.nextDep + 1) hh (h o hh)
        by_cases hk : o.kind = .array
        · simp only [observerNewF, hh]
          rw [if_pos hk]
          exact hmark.comp (ihArr _ _)
        · simp only [observerNewF, hh]
          rw [if_neg hk]
          exact hmark.comp (ihWalk _ _ _)
    · intro s a keys
      cases keys with
      | nil => simp only [walkF]; exact Pres.same s
      | cons k ks =>
        simp only [walkF]
        exact (ihDR _ _ _ _).comp (ihWalk _ _ _)
    · intro s vs
      cases vs with
      | nil => simp only [observeArrayF]; exact Pres.same s
      | cons v vs =>
        simp only [observeArrayF]
        exact (ihObs _ _ _).comp (ihArr _ _)
    · intro s a k w
      cases hh : s.heap a with
      | none => simp only [defineReactiveF, hh]; exact Pres.same s
      | some o =>
        cases hl : lookupProp o.props k with
        | some sl =>
          by_cases hc : sl.configurable = false
          · simp only [defineReactiveF, hh, hl]
            simp [hc]
            exact pres_nextDep s _
          · simp only [defineReactiveF, hh, hl]
            simp [hc]
            exact (pres_nextDep s _).comp ((ihObs _ _ _).comp (pres_setProp _ _ _ _))
        | none =>
          simp only [defineReactiveF, hh, hl]
          exact (pres_nextDep s _).comp ((ihObs _ _ _).comp (pres_setProp _ _ _ _))
theorem Pres.marker {s s2 : St} (h : Pres s s2) {a : Nat} {o : Obj} {od : ObsData}
    (hh : s.heap a = some o) (hob : o.ob = some od) :
    ∃ o2 od2, s2.heap a = some o2 ∧ o2.kind = o.kind ∧ o2.ob = some od2 ∧
      od2.obId = od.obId ∧ od2.depId = od.depId := by
  obtain ⟨o2, ho2, hk, _, _, _, _, hm⟩ := h.heap a o hh
  obtain ⟨od2, hod2, hi, hd⟩ := hm od hob
  exact ⟨o2, od2, ho2, hk, hod2, hi, hd⟩

/-- The Observer constructor stamps the value with a marker carrying the
freshly allocated Observer and Dep identities, and returns that Observer. -/
theorem observerNew_marker (n : Nat) (s : St) (a : Nat) (o : Obj) (hh : s.heap a = some o) :
    (observerNewF n s a).2 = s.nextObs ∧
    ∃ o2 od2, (observerNewF n s a).1.heap a = some o2 ∧ o2.kind = o.kind ∧
      o2.ob = some od2 ∧ od2.obId = s.nextObs ∧ od2.depId = s.nextDep := by
  have hs1 : ∀ (s1 : St), s1.heap a = some { o with ob := some (⟨s.nextObs, s.nextDep, 0⟩ : ObsData) } →
      ∀ s2, Pres s1 s2 → ∃ o2 od2, s2.heap a = some o2 ∧ o2.kind = o.kind ∧
        o2.ob = some od2 ∧ od2.obId = s.nextObs ∧ od2.depId = s.nextDep := by
    intro s1 h1 s2 hp
    obtain ⟨o2, od2, ho2, hk, hob2, hi, hd⟩ := hp.marker h1 rfl
    exact ⟨o2, od2, ho2, hk, hob2, hi, hd⟩
  cases n with
  | zero =>
    refine ⟨by simp [observerNewF, hh], ?_⟩
    simp only [observerNewF, hh]
    exact ⟨{ o with ob := some ⟨s.nextObs, s.nextDep, 0⟩ }, ⟨s.nextObs, s.nextDep, 0⟩,
      by simp, rfl, rfl, rfl, rfl⟩
  | succ n =>
    constructor
    · by_cases hk : o.kind = .array
      · simp only [observerNewF, hh]
        rw [if_pos hk]
      · simp only [observerNewF, hh]
        rw [if_neg hk]
    · by_cases hk : o.kind = .array
      · simp only [observerNewF, hh]
        rw [if_pos hk]
        exact hs1 _ (by simp) _ ((presAll n).2.2.2.1 _ _)
      · simp only [observerNewF, hh]
        rw [if_neg hk]
        exact hs1 _ (by simp) _ ((presAll n).2.2.1 _ _ _)

/-- When `observe` returns an Observer, the observed value is a reference
to a non-VNode heap object whose `__ob__` marker carries exactly that
identity of that Observer in the resulting state. -/
theorem observe_marker (n : Nat) (s : St) (v : Value) (r : Bool) (i : Nat)
    (h : (observeF n s v r).2 = some i) :
    ∃ a, v = .ref a ∧ ∃ o2, (observeF n s v r).1.heap a = some o2 ∧
      ¬ o2.kind = .vnode ∧ ∃ od, o2.ob = some od ∧ od.obId = i := by
  cases n with
  | zero => simp [observeF] at h
  | succ n =>
    cases v with
    | ref a =>
      refine ⟨a, rfl, ?_⟩
      cases hh : s.heap a with
      | none => simp [observeF, hh] at h
      | some o =>
        by_cases hv : o.kind = .vnode
        · simp [observeF, hh, hv] at h
        · cases hob : o.ob with
          | some od =>
            cases r with
            | false =>
              simp only [observeF, hh, hob] at h ⊢
              simp [hv] at h ⊢
              exact ⟨o, hh, hv, od, hob, h⟩
            | true =>
              simp only [observeF, hh, hob] at h ⊢
              simp [hv] at h ⊢
              refine ⟨{ o with ob := some { od with vmCount := od.vmCount + 1 } },
                ?_, hv, _, rfl, h⟩
              simp [bumpVm, updObj, hh, hob]
          | none =>
            by_cases hg : (s.shouldObserve && !s.serverRendering &&
                (decide (o.kind = .array) || decide (o.kind = .plain)) &&
                o.extensible && !o.isVue) = true
            · obtain ⟨hret, o2, od2, ho2, hk2, hob2, hi2, hd2⟩ :=
                observerNew_marker n s a o hh
              cases r with
              | false =>
                simp only [observeF, hh, hob] at h ⊢
                simp [hv, hg] at h ⊢
                refine ⟨o2, ho2, by rw [hk2]; exact hv, od2, hob2, ?_⟩
                rw [hi2, ← hret, h]
              | true =>
                simp only [observeF, hh, hob] at h ⊢
                simp [hv, hg] at h ⊢
                obtain ⟨o3, od3, ho3, hk3, hob3, hi3, hd3⟩ :=
                  (pres_bumpVm (observerNewF n s a).1 a).marker ho2 hob2
                refine ⟨o3, ho3, by rw [hk3, hk2]; exact hv, od3, hob3, ?_⟩
                rw [hi3, hi2, ← hret, h]
            · simp only [observeF, hh, hob] at h
              simp [hv, hg] at h
    | undef => simp [observeF] at h
    | null => simp [observeF] at h
    | bool b => simp [observeF] at h
    | num m => simp [observeF] at h
    | nan => simp [observeF] at h
    | str t => simp [observeF] at h

/-- Claim C1: `observe` is idempotent — once a first `observe(x)` has attached
(or found) an Observer on an eligible container, every later `observe(x)`
returns the identical Observer instance rather than creating a new one, so
`x` carries at most one Observer over its lifetime. -/
theorem claim_C1_observe_idempotent (n m : Nat) (s : St) (v : Value) (r r2 : Bool) (i : Nat)
    (h : (observeF n s v r).2 = some i) :
    (observeF (m + 1) (observeF n s v r).1 v r2).2 = some i := by
  obtain ⟨a, rfl, o2, hh2, hv2, od, hob2, hi⟩ := observe_marker n s v r i h
  cases r2 with
  | false => simp [observeF, hh2, hv2, hob2, hi]
  | true => simp [observeF, hh2, hv2, hob2, hi]

/-- Witness for C1: observing an eligible empty plain object returns
Observer 0, and a repeated `observe` (here even with `asRootData` set)
returns the same Observer 0. -/
theorem claim_C1_witness :
    (observeF 2 plainHeapSt (.ref 0) false).2 = some 0 ∧
    (observeF 1 (observeF 2 plainHeapSt (.ref 0) false).1 (.ref 0) true).2 = some 0 :=
  ⟨by decide, claim_C1_observe_idempotent 2 0 plainHeapSt (.ref 0) false true 0 (by decide)⟩

/-- Claim C2: writing a value that is strictly equal to the current value of a
reactive slot — or a not-a-number over a stored not-a-number — is a
complete no-op: the resulting state is unchanged, so the stored value
stays, the new value is not observed, the cached child observer is not
recomputed, and no notification event reaches the Dep of the slot. -/
theorem claim_C2_noop_write (n : Nat) (s : St) (a : Nat) (key : String) (newVal : Value)
    (o : Obj) (sl : PropSlot) (d : Nat)
    (hh : s.heap a = some o) (hsl : lookupProp o.props key = some sl)
    (hd : sl.rdep = some d)
    (heq : (jsStrictEq newVal sl.value || (selfNeq newVal && selfNeq sl.value)) = true) :
    reactiveSetterF n s a key newVal = s := by
  simp [reactiveSetterF, hh, hsl, hd, heq]

/-- Witness for C2: writing the identical number, and writing `NaN` over a
stored `NaN`, both leave the state untouched. -/
theorem claim_C2_witness :
    reactiveSetterF 1 rSlotSt 0 "k" (.num 1) = rSlotSt ∧
    reactiveSetterF 1 rSlotSt 1 "k" .nan = rSlotSt :=
  ⟨claim_C2_noop_write 1 rSlotSt 0 "k" (.num 1) rObjNum rSlotNum 7 rfl rfl rfl (by decide),
   claim_C2_noop_write 1 rSlotSt 1 "k" .nan rObjNan rSlotNan 8 rfl rfl rfl (by decide)⟩

/-- Claim C8: on a reactive slot installed over a property that had a getter but
no setter, a write whose value differs from the current value is silently
dropped: the state is unchanged, so nothing is stored, the child observer
is not recomputed, and no notification event is emitted. -/
theorem claim_C8_getter_without_setter (n : Nat) (s : St) (a : Nat) (key : String)
    (newVal : Value) (o : Obj) (sl : PropSlot) (d : Nat)
    (hh : s.heap a = some o) (hsl : lookupProp o.props key = some sl)
    (hd : sl.rdep = some d) (hG : sl.hasGetter = true) (hS : sl.hasSetter = false)
    (hneq : (jsStrictEq newVal sl.value || (selfNeq newVal && selfNeq sl.value)) = false) :
    reactiveSetterF n s a key newVal = s := by
  simp [reactiveSetterF, hh, hsl, hd, hneq, hG, hS]

/-- Witness for C8: writing a different number to a read-only passthrough
slot leaves the state untouched. -/
theorem claim_C8_witness : reactiveSetterF 1 rGetterSt 0 "k" (.num 2) = rGetterSt :=
  claim_C8_getter_without_setter 1 rGetterSt 0 "k" (.num 2) rObjGet rSlotGet 7 rfl rfl rfl
    rfl rfl (by decide)
/-- Counterexample to claim C9: in the pristine initial active-reader state
(`targetStack = []`, `Dep.target = null`), a `pushTarget`/`popTarget` pair
does not restore `Dep.target` to exactly its prior value: the pop leaves
`undefined` (the result of indexing the emptied stack), not the initial
`null`, so "restores Dep.target to exactly the value it held before the
push" fails at this state. -/
theorem claim_C9_counterexample :
    popTargetF (pushTargetF { stack := [], target := .null } (.w 0)) ≠
      { stack := [], target := .null } := by decide

/-- Claim C9, amended: `pushTarget(w)` always makes `Dep.target` equal `w`; the
matching `popTarget()` sets `Dep.target` to the top of the prior stack
(`undefined` when that stack is empty), which restores exactly the prior
state whenever the prior `Dep.target` agreed with its stack top — true in
every state except the pristine initial one, whose `null` is restored as
`undefined` (an equivalent "no active reader" value). -/
theorem claim_C9_push_pop (s : TState) (t : TVal) :
    (pushTargetF s t).target = t ∧
    (s.target = (s.stack.getLast?).getD .undef → popTargetF (pushTargetF s t) = s) := by
  constructor
  · rfl
  · intro h
    cases s with
    | mk stack target =>
      simp [popTargetF, pushTargetF]
      simp at h
      exact h.symm

/-- Witness for C9 (amended): pushing `undefined` over a one-deep stack and
popping restores the prior state exactly. -/
theorem claim_C9_witness :
    (pushTargetF { stack := [.w 1], target := .w 1 } .undef).target = .undef ∧
    popTargetF (pushTargetF { stack := [.w 1], target := .w 1 } .undef) =
      { stack := [.w 1], target := .w 1 } :=
  ⟨(claim_C9_push_pop { stack := [.w 1], target := .w 1 } .undef).1,
   (claim_C9_push_pop { stack := [.w 1], target := .w 1 } .undef).2 (by decide)⟩

/-- The iteration of `notify` invokes exactly the snapshot it was handed,
regardless of how the live subscriber list is mutated reentrantly. -/
theorem notifyLoop_fst (l : List Nat) (eff : Nat → List Nat → List Nat) (live : List Nat) :
    (notifyLoopF l eff live).1 = l := by
  induction l generalizing live with
  | nil => simp [notifyLoopF]
  | cons w rest ih => simp [notifyLoopF, ih]

/-- Claim C3: with synchronous non-batched delivery in effect (dev mode,
`config.async = false`), one `notify()` call invokes `update()` on the
subscribers of the snapshot in strictly ascending creation-order id —
for distinct-id subscribers the invocation list is a sorted permutation
of the subscriber list and hits each subscriber exactly once (the model
invokes `update` with no argument by construction). -/
theorem claim_C3_sync_order (eff : Nat → List Nat → List Nat) (subs : List Nat)
    (hnd : subs.Nodup) :
    List.Perm (notifyF true false eff subs).1 subs ∧
    List.Sorted (fun x y => x < y) (notifyF true false eff subs).1 ∧
    ∀ w ∈ subs, ((notifyF true false eff subs).1).count w = 1 := by
  have hfst : (notifyF true false eff subs).1 =
      List.insertionSort (fun x y => x ≤ y) subs := by
    simp [notifyF, notifyLoop_fst, notifySnapshot]
  rw [hfst]
  have hperm := List.perm_insertionSort (fun x y => x ≤ y) subs
  have hsorted := List.sorted_insertionSort (fun x y => x ≤ y) subs
  have hnd2 : (List.insertionSort (fun x y => x ≤ y) subs).Nodup :=
    hperm.nodup_iff.mpr hnd
  refine ⟨hperm, ?_, ?_⟩
  · exact (hsorted.and hnd2).imp fun h => lt_of_le_of_ne h.1 h.2
  · intro w hw
    rw [hperm.count_eq]
    exact List.count_eq_one_of_mem hnd hw

/-- Claim C4: `notify()` snapshots the subscriber list before iterating — the
invocation list is exactly the snapshot taken at call start, for every
reentrant mutation `eff` of the live list, so a subscriber added mid-pass
is not invoked in that pass and one removed mid-pass is still invoked:
membership in the invoked list coincides with membership in the list at
call start. -/
theorem claim_C4_snapshot_iterate (dev async : Bool) (eff : Nat → List Nat → List Nat)
    (subs : List Nat) :
    (notifyF dev async eff subs).1 = notifySnapshot dev async subs ∧
    (∀ w, w ∈ (notifyF dev async eff subs).1 ↔ w ∈ subs) := by
  constructor
  · exact notifyLoop_fst _ _ _
  · intro w
    show w ∈ (notifyLoopF (notifySnapshot dev async subs) eff subs).1 ↔ w ∈ subs
    rw [notifyLoop_fst]
    unfold notifySnapshot
    by_cases h : (dev && !async) = true
    · simp only [h, if_true]
      exact (List.perm_insertionSort _ subs).mem_iff
    · simp only [h]
      simp

theorem eligible_not_vnode {s : St} {o : Obj}
    (hel : (s.shouldObserve && !s.serverRendering &&
      (decide (o.kind = .array) || decide (o.kind = .plain)) && o.extensible && !o.isVue) = true) :
    ¬ o.kind = .vnode := by
  intro hv
  simp [hv] at hel

theorem observe_eligible_some (n : Nat) (s : St) (a : Nat) (o : Obj) (r : Bool)
    (hh : s.heap a = some o)
    (hel : (s.shouldObserve && !s.serverRendering &&
      (decide (o.kind = .array) || decide (o.kind = .plain)) && o.extensible && !o.isVue) = true) :
    ∃ i, (observeF (n + 1) s (.ref a) r).2 = some i := by
  have hv := eligible_not_vnode hel
  cases hob : o.ob with
  | some od =>
    cases r with
    | false => exact ⟨od.obId, by simp [observeF, hh, hv, hob]⟩
    | true => exact ⟨od.obId, by simp [observeF, hh, hv, hob]⟩
  | none =>
    cases r with
    | false => exact ⟨(observerNewF n s a).2, by simp [observeF, hh, hv, hob, hel]⟩
    | true => exact ⟨(observerNewF n s a).2, by simp [observeF, hh, hv, hob, hel]⟩

theorem observeArray_marks (n : Nat) (s : St) (vs : List Value) (hlen : vs.length < n) :
    ∀ v ∈ vs, ∀ b, v = .ref b → ∀ o, s.heap b = some o → eligibleObj s o →
      ∃ o2 od2, (observeArrayF n s vs).heap b = some o2 ∧ o2.ob = some od2 := by
  induction vs generalizing s n with
  | nil => intro v hv; cases hv
  | cons v vs ih =>
    intro u hu b hub o hho hel
    obtain ⟨n2, rfl⟩ : ∃ n2, n = n2 + 1 := ⟨n - 1, by omega⟩
    have hn2 : vs.length < n2 := by simpa using hlen
    have hstep : observeArrayF (n2 + 1) s (v :: vs) =
        observeArrayF n2 (observeF n2 s v false).1 vs := by
      simp [observeArrayF]
    rw [hstep]
    have hpresStep : Pres s (observeF n2 s v false).1 := (presAll n2).1 s v false
    cases hu with
    | head =>
      -- u = v, so v = .ref b
      subst hub
      cases hel with
      | inl hmark =>
        obtain ⟨od, hod⟩ := Option.isSome_iff_exists.mp hmark
        obtain ⟨o2, od2, ho2, _, hob2, _, _⟩ := hpresStep.marker hho hod
        obtain ⟨o3, od3, ho3, _, hob3, _, _⟩ :=
          ((presAll n2).2.2.2.1 (observeF n2 s (.ref b) false).1 vs).marker ho2 hob2
        exact ⟨o3, od3, ho3, hob3⟩
      | inr hel =>
        obtain ⟨n3, rfl⟩ : ∃ n3, n2 = n3 + 1 := ⟨n2 - 1, by omega⟩
        obtain ⟨i, hi⟩ := observe_eligible_some n3 s b o false hho hel
        obtain ⟨b2, hb2, o2, ho2, _, od2, hob2, _⟩ :=
          observe_marker (n3 + 1) s (.ref b) false i hi
        injection hb2 with hb2
        subst hb2
        obtain ⟨o3, od3, ho3, _, hob3, _, _⟩ :=
          ((presAll (n3 + 1)).2.2.2.1 (observeF (n3 + 1) s (.ref b) false).1 vs).marker ho2 hob2
        exact ⟨o3, od3, ho3, hob3⟩
    | tail _ hu2 =>
      -- u is in the tail; transfer eligibility across the head step
      obtain ⟨o2, ho2, hk2, _, _, hv2, hx2, hm2⟩ := hpresStep.heap b o hho
      have hel2 : eligibleObj (observeF n2 s v false).1 o2 := by
        cases hob2 : o2.ob with
        | some od2 => exact Or.inl (by simp [hob2])
        | none =>
          cases hel with
          | inl hmark =>
            obtain ⟨od, hod⟩ := Option.isSome_iff_exists.mp hmark
            obtain ⟨od2, hod2, _, _⟩ := hm2 od hod
            rw [hob2] at hod2
            cases hod2
          | inr hel =>
            refine Or.inr ?_
            rw [hk2, hv2, hx2, hpresStep.flagObserve, hpresStep.flagServer]
            exact hel
      exact ih n2 (observeF n2 s v false).1 hn2 u hu2 b hub o2 ho2 hel2

/-- Core specification of the interceptor `mutator`: the return value is
exactly that of the native method, the event trace gains exactly one
notification on the own Dep of the array Observer, the elements are mutated
natively, and every inserted element that is due to be instrumented ends
up carrying an Observer marker. -/
theorem mutator_spec (n : Nat) (s : St) (a : Nat) (m : AMethod) (args : List Value)
    (o : Obj) (od : ObsData)
    (hh : s.heap a = some o) (hob : o.ob = some od)
    (hlen : ((insertedOf m args).getD []).length < n) :
    (mutatorF n s a m args).2 = (nativeArr m a o.elems args).2 ∧
    ((mutatorF n s a m args).1).events = s.events ++ [.notify od.depId] ∧
    (∃ o2, ((mutatorF n s a m args).1).heap a = some o2 ∧
      o2.elems = (nativeArr m a o.elems args).1) ∧
    (∀ v ∈ (insertedOf m args).getD [], ∀ b, v = .ref b → ∀ o3, s.heap b = some o3 →
      eligibleObj s o3 →
      ∃ o4 od4, ((mutatorF n s a m args).1).heap b = some o4 ∧ o4.ob = some od4) := by
  have hs1a : ∀ e, (updElems s a e).heap a = some { o with elems := e } := by
    intro e
    simp [updElems, updObj, hh]
  have hs1b : ∀ e b, ¬ b = a → (updElems s a e).heap b = s.heap b := by
    intro e b hba
    simp [updElems, updObj, hba]
  cases hins : insertedOf m args with
  | none =>
    refine ⟨by simp [mutatorF, hh, hins, hob], ?_, ?_, ?_⟩
    · simp [mutatorF, hh, hins, hob, updElems, updObj]
    · refine ⟨{ o with elems := (nativeArr m a o.elems args).1 }, ?_, rfl⟩
      simp [mutatorF, hh, hins, hob, updElems, updObj]
    · simp [hins]
  | some ins =>
    have hpres := (presAll n).2.2.2.1 (updElems s a (nativeArr m a o.elems args).1) ins
    have hlen2 : ins.length < n := by
      rw [hins] at hlen
      simpa using hlen
    refine ⟨by simp [mutatorF, hh, hins, hob], ?_, ?_, ?_⟩
    · have : (mutatorF n s a m args).1.events =
          (observeArrayF n (updElems s a (nativeArr m a o.elems args).1) ins).events ++
            [.notify od.depId] := by
        simp [mutatorF, hh, hins, hob]
      rw [this, hpres.events]
      simp [updElems, updObj]
    · obtain ⟨o2, ho2, _, he2, _, _, _, _⟩ :=
        hpres.heap a { o with elems := (nativeArr m a o.elems args).1 } (hs1a _)
      refine ⟨o2, ?_, by rw [he2]⟩
      simp [mutatorF, hh, hins, hob]
      exact ho2
    · intro v hv b hvb o3 ho3 hel
      rw [Option.getD_some] at hv
      have hgoal : ∀ o4 od4,
          (observeArrayF n (updElems s a (nativeArr m a o.elems args).1) ins).heap b = some o4 →
          o4.ob = some od4 →
          ∃ o4 od4, ((mutatorF n s a m args).1).heap b = some o4 ∧ o4.ob = some od4 := by
        intro o4 od4 h4 h4b
        refine ⟨o4, od4, ?_, h4b⟩
        simp [mutatorF, hh, hins, hob]
        exact h4
      by_cases hba : b = a
      · subst hba
        rw [hh] at ho3
        injection ho3 with ho3
        subst ho3
        have hel2 : eligibleObj (updElems s b (nativeArr m b o.elems args).1)
            { o with elems := (nativeArr m b o.elems args).1 } :=
          Or.inl (by simp [hob])
        obtain ⟨o4, od4, h4, h4b⟩ :=
          observeArray_marks n _ ins hlen2 v hv b hvb _ (hs1a _) hel2
        exact hgoal o4 od4 h4 h4b
      · have hel2 : eligibleObj (updElems s a (nativeArr m a o.elems args).1) o3 := by
          cases hel with
          | inl h => exact Or.inl h
          | inr h => exact Or.inr h
        obtain ⟨o4, od4, h4, h4b⟩ :=
          observeArray_marks n _ ins hlen2 v hv b hvb o3 (by rw [hs1b _ b hba]; exact ho3) hel2
        exact hgoal o4 od4 h4 h4b

/-- The `splice(k, 1, val)` element-list arithmetic used by `set` on
arrays: the result keeps length `max len (k+1)` and stores `val` at
index `k`. -/
theorem spliceNative_set (e1 : List Value) (k : Nat) (val : Value) (hk : k ≤ e1.length) :
    (spliceNative e1 [.num (k : Int), .num 1, val]).1.length = max e1.length (k + 1) ∧
    (spliceNative e1 [.num (k : Int), .num 1, val]).1[k]? = some val := by
  have hstart : (if ((k : Int)) < 0 then (max ((e1.length : Int) + (k : Int)) 0).toNat
      else (min ((k : Int)) ((e1.length : Int))).toNat) = k := by
    rw [if_neg (by omega)]
    omega
  have hdel : ((min (max ((1 : Int)) 0) (((e1.length : Int)) - ((k : Int)))).toNat) =
      min 1 (e1.length - k) := by
    omega
  constructor
  · show (e1.take _ ++ [val] ++ e1.drop _).length = _
    simp only [spliceNative, toIntJs]
    rw [hstart, hdel]
    simp [List.length_take, List.length_drop]
    omega
  · show (e1.take _ ++ [val] ++ e1.drop _)[k]? = some val
    simp only [spliceNative, toIntJs]
    rw [hstart, hdel]
    have htk : (e1.take k).length = k := by
      simp [List.length_take]
      omega
    rw [List.append_assoc, List.getElem?_append_right (by rw [htk]), htk]
    simp

/-- Claim C6: on an observed array and a valid non-negative integer index `k`,
`set(arr, k, val)` grows the length to at least `k+1`, performs the
assignment through the splice path of the interceptor so that afterwards
`arr[k] = val` and `arr.length = max (old length) (k+1) ≥ k+1`, delivers
exactly one notification on the Dep of the array Observer within the same
call, and returns `val`. -/
theorem claim_C6_set_array_index (n : Nat) (s : St) (a : Nat) (k : Nat) (val : Value)
    (o : Obj) (od : ObsData)
    (hh : s.heap a = some o) (hk : o.kind = .array) (hob : o.ob = some od) (hn : 1 < n) :
    (jsSet n s (.ref a) (.num (k : Int)) val).2 = .ok val ∧
    ((jsSet n s (.ref a) (.num (k : Int)) val).1).events = s.events ++ [.notify od.depId] ∧
    ∃ o2, ((jsSet n s (.ref a) (.num (k : Int)) val).1).heap a = some o2 ∧
      o2.elems.length = max o.elems.length (k + 1) ∧ o2.elems[k]? = some val := by
  have hvalid : isValidArrayIndex (.num (k : Int)) = true := by
    simp [isValidArrayIndex]
  by_cases hlen : o.elems.length < k
  · -- the length must first be grown to k
    set e1 : List Value := o.elems ++ List.replicate (k - o.elems.length) .undef with he1
    set s1 : St := updElems s a e1 with hs1
    have hh1 : s1.heap a = some { o with elems := e1 } := by
      simp [hs1, updElems, updObj, hh]
    have hred : jsSet n s (.ref a) (.num (k : Int)) val =
        ((arrayMethodCallF n s1 a .splice [.num (k : Int), .num 1, val]).1, .ok val) := by
      simp [jsSet, isUndef, isPrimitive, isArrayV, hh, hk, hvalid, toIntJs, hlen, hs1, he1]
    have hcall : arrayMethodCallF n s1 a .splice [.num (k : Int), .num 1, val] =
        mutatorF n s1 a .splice [.num (k : Int), .num 1, val] := by
      simp [arrayMethodCallF, hh1, hob]
    obtain ⟨_, hev, ⟨o2, ho2, he2⟩, _⟩ :=
      mutator_spec n s1 a .splice [.num (k : Int), .num 1, val] { o with elems := e1 } od
        hh1 (by simpa using hob) (by simp [insertedOf]; omega)
    have hke1 : k ≤ e1.length := by
      simp [he1]
      omega
    obtain ⟨hlen2, hget2⟩ := spliceNative_set e1 k val hke1
    rw [hred]
    refine ⟨rfl, ?_, o2, ?_, ?_, ?_⟩
    · rw [hcall, hev]
      simp [hs1, updElems, updObj]
    · rw [hcall]
      exact ho2
    · rw [he2]
      show (spliceNative e1 [.num (k : Int), .num 1, val]).1.length = _
      rw [hlen2]
      simp [he1]
      omega
    · rw [he2]
      exact hget2
  · -- no growth needed
    have hh1 : s.heap a = some o := hh
    have hred : jsSet n s (.ref a) (.num (k : Int)) val =
        ((arrayMethodCallF n s a .splice [.num (k : Int), .num 1, val]).1, .ok val) := by
      simp [jsSet, isUndef, isPrimitive, isArrayV, hh, hk, hvalid, toIntJs, hlen]
    have hcall : arrayMethodCallF n s a .splice [.num (k : Int), .num 1, val] =
        mutatorF n s a .splice [.num (k : Int), .num 1, val] := by
      simp [arrayMethodCallF, hh, hob]
    obtain ⟨_, hev, ⟨o2, ho2, he2⟩, _⟩ :=
      mutator_spec n s a .splice [.num (k : Int), .num 1, val] o od
        hh hob (by simp [insertedOf]; omega)
    obtain ⟨hlen2, hget2⟩ := spliceNative_set o.elems k val (by omega)
    rw [hred]
    refine ⟨rfl, ?_, o2, ?_, ?_, ?_⟩
    · rw [hcall, hev]
    · rw [hcall]
      exact ho2
    · rw [he2]
      exact hlen2
    · rw [he2]
      exact hget2

/-- Claim C7, amended: `set`/`del` on a null, undefined or primitive target
emit the non-fatal diagnostic (in dev mode) first, but the call then
throws a TypeError in almost every case, aborting the caller: `set` on any
such target (the `key in target` test throws on non-objects), `del` on
null/undefined (reading `target.__ob__` throws), and `del` on a string
primitive whose key is an own property of the boxed string (an index or
`length`), where the strict-mode `delete` of the non-configurable property
throws; only `del` on a non-nullish primitive target whose key is not such
an own property is a safe warn-only no-op. -/
theorem claim_C7_amended (n : Nat) (s : St) (target key val : Value) :
    (isUndef target = true →
      jsSet n s target key val = (if s.dev then warnEv s else s, .error .typeError) ∧
      jsDel n s target key = (if s.dev then warnEv s else s, .error .typeError)) ∧
    (isPrimitive target = true →
      jsSet n s target key val = (if s.dev then warnEv s else s, .error .typeError) ∧
      jsDel n s target key = (if s.dev then warnEv s else s,
        if primOwnKey target (propKey key) then .error .typeError else .ok ())) := by
  cases target with
  | undef =>
    refine ⟨fun _ => ⟨?_, ?_⟩, fun h => by simp [isPrimitive] at h⟩
    · cases hd : s.dev <;> simp [jsSet, isUndef, isPrimitive, isArrayV, hd, warnEv]
    · cases hd : s.dev <;> simp [jsDel, isUndef, isPrimitive, isArrayV, hd, warnEv]
  | null =>
    refine ⟨fun _ => ⟨?_, ?_⟩, fun h => by simp [isPrimitive] at h⟩
    · cases hd : s.dev <;> simp [jsSet, isUndef, isPrimitive, isArrayV, hd, warnEv]
    · cases hd : s.dev <;> simp [jsDel, isUndef, isPrimitive, isArrayV, hd, warnEv]
  | bool b =>
    refine ⟨fun h => by simp [isUndef] at h, fun _ => ⟨?_, ?_⟩⟩
    · cases hd : s.dev <;> simp [jsSet, isUndef, isPrimitive, isArrayV, hd, warnEv]
    · cases hd : s.dev <;>
        simp [jsDel, isUndef, isPrimitive, isArrayV, hd, warnEv, primOwnKey]
  | num m =>
    refine ⟨fun h => by simp [isUndef] at h, fun _ => ⟨?_, ?_⟩⟩
    · cases hd : s.dev <;> simp [jsSet, isUndef, isPrimitive, isArrayV, hd, warnEv]
    · cases hd : s.dev <;>
        simp [jsDel, isUndef, isPrimitive, isArrayV, hd, warnEv, primOwnKey]
  | nan =>
    refine ⟨fun h => by simp [isUndef] at h, fun _ => ⟨?_, ?_⟩⟩
    · cases hd : s.dev <;> simp [jsSet, isUndef, isPrimitive, isArrayV, hd, warnEv]
    · cases hd : s.dev <;>
        simp [jsDel, isUndef, isPrimitive, isArrayV, hd, warnEv, primOwnKey]
  | str t =>
    refine ⟨fun h => by simp [isUndef] at h, fun _ => ⟨?_, ?_⟩⟩
    · cases hd : s.dev <;> simp [jsSet, isUndef, isPrimitive, isArrayV, hd, warnEv]
    · by_cases hp : primOwnKey (.str t) (propKey key) = true <;>
        cases hd : s.dev <;>
          simp [jsDel, isUndef, isPrimitive, isArrayV, hd, warnEv, hp]
  | ref a =>
    exact ⟨fun h => by simp [isUndef] at h, fun h => by simp [isPrimitive] at h⟩

/-- A plain assignment `target[key] = val` never emits a warning and
notifies at most the own reactive Dep of the assigned slot, whether it
succeeds or throws. -/
theorem assignSlot_events (n : Nat) (s : St) (a : Nat) (key : String) (v : Value) (o : Obj)
    (hh : s.heap a = some o) :
    ∃ tl, ((assignSlotF n s a key v).1).events = s.events ++ tl ∧
      ∀ e ∈ tl, ∃ d, e = .notify d ∧
        ∃ sl, lookupProp o.props key = some sl ∧ sl.rdep = some d := by
  cases hl : lookupProp o.props key with
  | none =>
    refine ⟨[], ?_, by simp⟩
    by_cases hx : o.extensible = true
    · simp [assignSlotF, hh, hl, hx, setProp, updObj]
    · simp [assignSlotF, hh, hl, hx]
  | some sl =>
    cases hrd : sl.rdep with
    | none =>
      refine ⟨[], ?_, by simp⟩
      by_cases hg : (sl.hasGetter && !sl.hasSetter) = true
      · simp [assignSlotF, hh, hl, hrd, hg]
      · simp [assignSlotF, hh, hl, hrd, hg, setProp, updObj]
    | some d =>
      have hred : (assignSlotF n s a key v).1 = reactiveSetterF n s a key v := by
        simp [assignSlotF, hh, hl, hrd]
      rw [hred]
      by_cases heq : (jsStrictEq v sl.value || (selfNeq v && selfNeq sl.value)) = true
      · exact ⟨[], by simp [reactiveSetterF, hh, hl, hrd, heq], by simp⟩
      · by_cases hg : (sl.hasGetter && !sl.hasSetter) = true
        · exact ⟨[], by simp [reactiveSetterF, hh, hl, hrd, heq, hg], by simp⟩
        · refine ⟨[.notify d], ?_, ?_⟩
          · have hpres := (presAll n).1 s v false
            simp [reactiveSetterF, hh, hl, hrd, heq, hg, setProp, updObj, hpres.events]
          · intro e he
            rw [List.mem_singleton] at he
            subst he
            exact ⟨d, rfl, sl, rfl, hrd⟩

/-- Counterexample to claim C10: on a non-array target whose own key
`"g"` is a non-reactive getter-only accessor slot, `set(target, "g", 2)`
does not perform a plain assignment returning the value — the strict-mode
assignment throws a TypeError (while, consistently with the rest of the
claim, still emitting no diagnostic). -/
theorem claim_C10_counterexample :
    (jsSet 1 gSt (.ref 0) (.str "g") (.num 2)).2 = .error .typeError ∧
    ((jsSet 1 gSt (.ref 0) (.str "g") (.num 2)).1).events = [] :=
  ⟨rfl, by decide⟩

/-- Claim C10, amended: for a non-array target whose key is already
present (own or inherited, excluding `Object.prototype` properties),
`set(target, key, val)` is exactly the strict-mode plain assignment,
reached before the root-data guard: no "avoid adding reactive properties"
diagnostic is emitted even when the `vmCount` of the Observer is positive,
and the only events `set` adds are notifications of the own reactive Dep
of the slot (none when the slot is not reactive); the call returns `val`
exactly when the assignment succeeds, and propagates the TypeError when
the strict-mode assignment throws (an own getter-only non-reactive slot,
or an absent own key on a non-extensible target). -/
theorem claim_C10_amended (n : Nat) (s : St) (a : Nat) (key : String) (val : Value)
    (o : Obj)
    (hh : s.heap a = some o) (_hna : ¬ o.kind = .array)
    (hin : ((lookupProp o.props key).isSome || o.protoKeys.contains key) = true)
    (hop : inObjectProto key = false) :
    jsSet n s (.ref a) (.str key) val =
      ((assignSlotF n s a key val).1, ((assignSlotF n s a key val).2).map fun _ => val) ∧
    ∃ tl, ((assignSlotF n s a key val).1).events = s.events ++ tl ∧
      ∀ e ∈ tl, ∃ d, e = .notify d ∧
        ∃ sl, lookupProp o.props key = some sl ∧ sl.rdep = some d := by
  constructor
  · have hjin : jsIn o key = true := by
      simp [jsIn]
      rcases Bool.or_eq_true_iff.mp hin with h | h
      · exact Or.inl (Or.inl h)
      · exact Or.inl (Or.inr (by simpa using h))
    simp [jsSet, isUndef, isPrimitive, isValidArrayIndex, propKey, hh, hjin, hop]
  · exact assignSlot_events n s a key val o hh

/-- Claim C5: each of the seven intercepted array methods, invoked on an
observed array, returns exactly the value of the native method, observes every
newly introduced element (the arguments of `push`/`unshift`, the `splice`
arguments from index 2 on), and notifies the own Dep of the array Observer
exactly once per call. -/
theorem claim_C5_array_interceptor (n : Nat) (s : St) (a : Nat) (m : AMethod)
    (args : List Value) (o : Obj) (od : ObsData)
    (hh : s.heap a = some o) (hob : o.ob = some od)
    (hlen : ((insertedOf m args).getD []).length < n) :
    (mutatorF n s a m args).2 = (nativeArr m a o.elems args).2 ∧
    ((mutatorF n s a m args).1).events = s.events ++ [.notify od.depId] ∧
    (∃ o2, ((mutatorF n s a m args).1).heap a = some o2 ∧
      o2.elems = (nativeArr m a o.elems args).1) ∧
    (∀ v ∈ (insertedOf m args).getD [], ∀ b, v = .ref b → ∀ o3, s.heap b = some o3 →
      eligibleObj s o3 →
      ∃ o4 od4, ((mutatorF n s a m args).1).heap b = some o4 ∧ o4.ob = some od4) :=
  mutator_spec n s a m args o od hh hob hlen

/-- Witness for C5: pushing the number 2 onto the observed array `[1]`
returns the native result (the new length 2), appends exactly one
notification of Dep 5, and leaves the elements `[1, 2]`. -/
theorem claim_C5_witness :
    (mutatorF 3 arrSt 0 .push [.num 2]).2 = (nativeArr .push 0 arrObj.elems [.num 2]).2 ∧
    ((mutatorF 3 arrSt 0 .push [.num 2]).1).events = arrSt.events ++ [.notify 5] ∧
    (∃ o2, ((mutatorF 3 arrSt 0 .push [.num 2]).1).heap 0 = some o2 ∧
      o2.elems = (nativeArr .push 0 arrObj.elems [.num 2]).1) ∧
    (∀ v ∈ (insertedOf .push [.num 2]).getD [], ∀ b, v = .ref b →
      ∀ o3, arrSt.heap b = some o3 → eligibleObj arrSt o3 →
      ∃ o4 od4, ((mutatorF 3 arrSt 0 .push [.num 2]).1).heap b = some o4 ∧
        o4.ob = some od4) :=
  claim_C5_array_interceptor 3 arrSt 0 .push [.num 2] arrObj ⟨0, 5, 0⟩ rfl rfl (by decide)

/-- Witness for C6: `set` at index 2 of the observed one-element array
returns the value, notifies Dep 5 exactly once, and leaves an array of
length 3 holding the value at index 2. -/
theorem claim_C6_witness :
    (jsSet 3 arrSt (.ref 0) (.num 2) (.num 9)).2 = .ok (.num 9) ∧
    ((jsSet 3 arrSt (.ref 0) (.num 2) (.num 9)).1).events = arrSt.events ++ [.notify 5] ∧
    ∃ o2, ((jsSet 3 arrSt (.ref 0) (.num 2) (.num 9)).1).heap 0 = some o2 ∧
      o2.elems.length = max arrObj.elems.length (2 + 1) ∧ o2.elems[2]? = some (.num 9) :=
  claim_C6_set_array_index 3 arrSt 0 2 (.num 9) arrObj ⟨0, 5, 0⟩ rfl rfl rfl (by omega)

/-- Counterexample to claim C7: `set(undefined, "x", 1)` does not complete
best-effort and is not a safe no-op — after emitting the diagnostic it
throws a TypeError (the `key in target` test on a non-object), refuting
"never throws, never aborts the caller". -/
theorem claim_C7_counterexample :
    (jsSet 1 plainHeapSt .undef (.str "x") (.num 1)).2 = .error .typeError ∧
    ((jsSet 1 plainHeapSt .undef (.str "x") (.num 1)).1).events = [.warn] :=
  ⟨rfl, by decide⟩

/-- Witness for C7 (amended): on the null target both `set` and `del` warn
and throw; on the primitive target 5, `set` warns and throws while `del`
is a warn-only safe no-op; on the string target `"ab"`, `del` of the own
boxed index 0 warns and throws while `del` of the absent key `"x"` is a
warn-only safe no-op. -/
theorem claim_C7_witness :
    (jsSet 1 plainHeapSt .null (.str "x") (.num 1) =
        (warnEv plainHeapSt, .error .typeError) ∧
      jsDel 1 plainHeapSt .null (.str "x") = (warnEv plainHeapSt, .error .typeError)) ∧
    (jsSet 1 plainHeapSt (.num 5) (.str "x") (.num 1) =
        (warnEv plainHeapSt, .error .typeError) ∧
      jsDel 1 plainHeapSt (.num 5) (.str "x") = (warnEv plainHeapSt, .ok ())) ∧
    jsDel 1 plainHeapSt (.str "ab") (.num 0) = (warnEv plainHeapSt, .error .typeError) ∧
    jsDel 1 plainHeapSt (.str "ab") (.str "x") = (warnEv plainHeapSt, .ok ()) :=
  ⟨(claim_C7_amended 1 plainHeapSt .null (.str "x") (.num 1)).1 (by decide),
   (claim_C7_amended 1 plainHeapSt (.num 5) (.str "x") (.num 1)).2 (by decide),
   ((claim_C7_amended 1 plainHeapSt (.str "ab") (.num 0) (.num 1)).2 (by decide)).2,
   ((claim_C7_amended 1 plainHeapSt (.str "ab") (.str "x") (.num 1)).2 (by decide)).2⟩

/-- Witness for C3: a synchronous notify over the distinct-id subscriber
list `[2, 0, 1]` fires a sorted permutation hitting each exactly once. -/
theorem claim_C3_witness :
    List.Perm (notifyF true false (fun _ l => l) [2, 0, 1]).1 [2, 0, 1] ∧
    List.Sorted (fun x y => x < y) (notifyF true false (fun _ l => l) [2, 0, 1]).1 ∧
    ∀ w ∈ [2, 0, 1], ((notifyF true false (fun _ l => l) [2, 0, 1]).1).count w = 1 :=
  claim_C3_sync_order (fun _ l => l) [2, 0, 1] (by decide)

/-- Witness for C10 (amended): on the root-data object (`vmCount = 1`)
with existing reactive key `"k"`, `set` is the plain assignment (here a
succeeding one, returning the value), and the only events added are
notifications of the own Dep of the slot. -/
theorem claim_C10_witness :
    jsSet 1 rootSt (.ref 0) (.str "k") (.num 5) =
      ((assignSlotF 1 rootSt 0 "k" (.num 5)).1,
        ((assignSlotF 1 rootSt 0 "k" (.num 5)).2).map fun _ => Value.num 5) ∧
    ∃ tl, ((assignSlotF 1 rootSt 0 "k" (.num 5)).1).events = rootSt.events ++ tl ∧
      ∀ e ∈ tl, ∃ d, e = .notify d ∧
        ∃ sl, lookupProp rootObj.props "k" = some sl ∧ sl.rdep = some d :=
  claim_C10_amended 1 rootSt 0 "k" (.num 5) rootObj rfl (by decide) (by decide)
    (by decide)
